import Mathlib

set_option maxHeartbeats 1000000

/-!
Verification of the gox repository: the `idx` identifier package and the
`slicex` bounded concurrent mapper.

Go strings are modelled as lists of characters; `strings.Split(s, ":")` is
modelled by `splitColon`; Go machine integers are modelled as `Int`.
-/

abbrev Str := List Char

/-- Model of `strings.Split(s, ":")`: splits at every colon; the empty
string yields a single empty part. -/
def splitColon : Str → List Str
  | [] => [[]]
  | c :: rest =>
    match splitColon rest with
    | [] => [[]]
    | p :: ps => if c = ':' then [] :: p :: ps else (c :: p) :: ps

/-- Joining parts with a colon separator (inverse direction of `splitColon`). -/
def joinColon : List Str → Str
  | [] => []
  | [p] => p
  | p :: q :: ps => p ++ ':' :: joinColon (q :: ps)

/-- Model of the character class `[a-zA-Z]` from `typeRegex`. -/
def isLetter (c : Char) : Bool := ('a' ≤ c && c ≤ 'z') || ('A' ≤ c && c ≤ 'Z')

/-- Model of the character class `[a-zA-Z0-9_]` from `typeRegex`. -/
def isTypeChar (c : Char) : Bool := isLetter c || ('0' ≤ c && c ≤ '9') || c = '_'

/-- Model of `typeRegex.MatchString` with pattern starting with a letter and
continuing with letters, digits and underscores, anchored on both sides. -/
def typeRegexMatch : Str → Bool
  | [] => false
  | c :: rest => isLetter c && rest.all isTypeChar

/-- Model of `Type.Validate` from the idx package: not empty, at most 32
characters, no colons, and matching the type regular expression, with the
checks performed in the source order. -/
def typeValidate (t : Str) : Except String Unit :=
  if t.isEmpty then .error ("type cannot be empty")
  else if 32 < t.length then .error ("type cannot be longer than 32 characters")
  else if t.contains ':' then .error ("type cannot contain colons")
  else if typeRegexMatch t then .ok ()
  else .error ("type must start with a letter and contain only letters, numbers, and underscores")

/-- Model of `ParseType`: validate and return the string as a type. -/
def ParseType (s : Str) : Except String Str :=
  match typeValidate s with
  | .error e => .error e
  | .ok _ => .ok s

/-- Model of the `ID` struct of the idx package. -/
structure ID where
  env : Str
  objectType : Str
  objectID : Str
deriving DecidableEq

/-- Model of `ID.String`: the format is environment-colon-type-colon-objectID. -/
def IDString (id : ID) : Str := id.env ++ ':' :: id.objectType ++ ':' :: id.objectID

/-- Model of `ParseID`: split on colons, require exactly three parts, require
a nonempty environment, a valid type and a nonempty object ID. -/
def ParseID (s : Str) : Except String ID :=
  match splitColon s with
  | [environment, t, objectID] =>
    if environment.isEmpty then .error ("invalid ID: env cannot be empty")
    else
      match ParseType t with
      | .error e => .error ("invalid ID: " ++ e)
      | .ok objectType =>
        if objectID.isEmpty then .error ("invalid ID: object ID cannot be empty")
        else .ok ⟨environment, objectType, objectID⟩
  | _ => .error ("invalid ID format: expected 3 parts separated by colons")

/-!
Embedding of `slicex.MapConcurrentHandler` and its `Execute` method.

The transform `mapFunc` receives the caller's ambient context; a context is
observable by the transform only through its cancellation status, so the
transform is modelled as a function of the ambient cancellation flag and the
element.  Go's `int` is modelled as `Int`.  The buffered jobs channel of
capacity `len(items)` is modelled as a FIFO list (a send never blocks because
at most `len(items)` sends ever happen).  The concurrent execution of the
dispatcher goroutine, the worker goroutines and an external cancellation of
the ambient context is modelled as a small-step transition relation over the
shared state, with one step per atomic channel/context/slot operation.
-/

/-- Model of the `MapConcurrentHandler` struct. -/
structure MapConcurrentHandler (T R E : Type) where
  mapFunc : Bool → T → Except E R
  concurrency : Int
  stopOnError : Bool

/-- Model of `MapConcurrent`: default concurrency 8, default stop-on-error. -/
def MapConcurrent {T R E : Type} (f : Bool → T → Except E R) : MapConcurrentHandler T R E :=
  { mapFunc := f, concurrency := 8, stopOnError := true }

/-- Model of `WithConcurrency`: sets the field with no validation. -/
def MapConcurrentHandler.WithConcurrency {T R E : Type} (h : MapConcurrentHandler T R E)
    (n : Int) : MapConcurrentHandler T R E :=
  { h with concurrency := n }

/-- Model of `WithStopOnError`. -/
def MapConcurrentHandler.WithStopOnError {T R E : Type} (h : MapConcurrentHandler T R E)
    (stop : Bool) : MapConcurrentHandler T R E :=
  { h with stopOnError := stop }

/-- The `numWorkers` computation of `Execute`: start from the configured
concurrency and lower it to the input length when the input is shorter. -/
def numWorkersOf {T R E : Type} (h : MapConcurrentHandler T R E) (n : Nat) : Int :=
  if (n : Int) < h.concurrency then (n : Int) else h.concurrency

/-- Number of worker goroutines actually spawned by the `for i < numWorkers`
loop (zero when `numWorkers` is not positive). -/
def workerCount {T R E : Type} (h : MapConcurrentHandler T R E) (n : Nat) : Nat :=
  (numWorkersOf h n).toNat

/-- Status of one worker goroutine: blocked in the `select`, currently
executing a `mapFunc` call on a job, or exited. -/
inductive WStatus (T : Type) where
  | idle
  | busy (index : Nat) (value : T)
  | done
deriving DecidableEq

/-- Which context value is passed to a `mapFunc` invocation: the caller's
ambient context or the pool's internal cancellable child context. -/
inductive CtxTag where
  | ambient
  | child
deriving DecidableEq

/-- Ghost record of one `mapFunc` invocation. -/
structure CallLog where
  index : Nat
  ctxPassed : CtxTag
deriving DecidableEq

/-- Shared state of one `Execute` call while the pool is running. -/
structure ExecState (T R E : Type) where
  sent : Nat
  queue : List (Nat × T)
  closed : Bool
  dispatcherDone : Bool
  childCancelled : Bool
  ambientCancelled : Bool
  results : List (Option R)
  errs : List (Option E)
  workers : List (WStatus T)
  calls : List CallLog
deriving DecidableEq

/-- The result slot at index `i` (`none` models the slot never having been
assigned; the Go slice holds the zero value there). -/
def resAt {T R E : Type} (s : ExecState T R E) (i : Nat) : Option R :=
  (s.results[i]?).getD none

/-- The error slot at index `i`. -/
def errAt {T R E : Type} (s : ExecState T R E) (i : Nat) : Option E :=
  (s.errs[i]?).getD none

def WStatus.isBusy {T : Type} : WStatus T → Bool
  | .busy _ _ => true
  | _ => false

/-- Number of `mapFunc` invocations currently in flight. -/
def inFlight {T R E : Type} (s : ExecState T R E) : Nat :=
  (s.workers.filter WStatus.isBusy).length

/-- State at the start of `Execute` on a non-empty input: `results` is a
pre-sized slice of length N, `errs` a pre-sized slice of length N+1, the
jobs channel is empty and open, and `workerCount` workers are blocked in
their `select`.  `amb0` is whether the ambient context is already cancelled
when `Execute` is called. -/
def initState {T R E : Type} (h : MapConcurrentHandler T R E) (items : List T)
    (amb0 : Bool) : ExecState T R E :=
  { sent := 0
    queue := []
    closed := false
    dispatcherDone := false
    childCancelled := amb0
    ambientCancelled := amb0
    results := List.replicate items.length none
    errs := List.replicate (items.length + 1) none
    workers := List.replicate (workerCount h items.length) .idle
    calls := [] }

/-- One atomic step of the pool: a dispatcher action, a worker action, or an
external cancellation of the ambient context.  The constructors mirror the
source line by line:
dispatchSend is the `jobs <- mapConcurrentJob` case of the dispatcher select
(always ready because the buffer capacity is the input length);
dispatchExitCancel is its `<-child.Done()` case (the deferred `close(jobs)`
still runs); dispatchClose is the `close(jobs)` after the loop;
workerPickup is a worker receiving a job and entering the `h.mapFunc(ctx,
item.value)` call with the ambient context; workerFinishOk stores into the
result slot; workerFinishErrStop stores into the error slot, calls `cancel()`
and returns; workerFinishErrCont stores into the error slot and loops;
workerExitCancel is the worker `<-child.Done()` case; workerExitClosed is a
receive from the closed and drained channel; ambientCancel is the caller's
context expiring, which also cancels the derived child context. -/
inductive Step {T R E : Type} (h : MapConcurrentHandler T R E) (items : List T) :
    ExecState T R E → ExecState T R E → Prop where
  | dispatchSend (s : ExecState T R E) (t : T)
      (hd : s.dispatcherDone = false)
      (hi : items[s.sent]? = some t) :
      Step h items s { s with sent := s.sent + 1, queue := s.queue ++ [(s.sent, t)] }
  | dispatchExitCancel (s : ExecState T R E)
      (hd : s.dispatcherDone = false)
      (hc : s.childCancelled = true)
      (hlt : s.sent < items.length) :
      Step h items s { s with dispatcherDone := true, closed := true }
  | dispatchClose (s : ExecState T R E)
      (hd : s.dispatcherDone = false)
      (hs : s.sent = items.length) :
      Step h items s { s with dispatcherDone := true, closed := true }
  | workerPickup (s : ExecState T R E) (w i : Nat) (v : T) (rest : List (Nat × T))
      (hw : s.workers[w]? = some .idle)
      (hq : s.queue = (i, v) :: rest) :
      Step h items s { s with queue := rest,
                              workers := s.workers.set w (.busy i v),
                              calls := s.calls ++ [⟨i, .ambient⟩] }
  | workerFinishOk (s : ExecState T R E) (w i : Nat) (v : T) (r : R)
      (hw : s.workers[w]? = some (WStatus.busy i v))
      (hf : h.mapFunc s.ambientCancelled v = .ok r) :
      Step h items s { s with results := s.results.set i (some r),
                              workers := s.workers.set w .idle }
  | workerFinishErrStop (s : ExecState T R E) (w i : Nat) (v : T) (e : E)
      (hw : s.workers[w]? = some (WStatus.busy i v))
      (hf : h.mapFunc s.ambientCancelled v = .error e)
      (hstop : h.stopOnError = true) :
      Step h items s { s with errs := s.errs.set i (some e),
                              childCancelled := true,
                              workers := s.workers.set w .done }
  | workerFinishErrCont (s : ExecState T R E) (w i : Nat) (v : T) (e : E)
      (hw : s.workers[w]? = some (WStatus.busy i v))
      (hf : h.mapFunc s.ambientCancelled v = .error e)
      (hstop : h.stopOnError = false) :
      Step h items s { s with errs := s.errs.set i (some e),
                              workers := s.workers.set w .idle }
  | workerExitCancel (s : ExecState T R E) (w : Nat)
      (hw : s.workers[w]? = some .idle)
      (hc : s.childCancelled = true) :
      Step h items s { s with workers := s.workers.set w .done }
  | workerExitClosed (s : ExecState T R E) (w : Nat)
      (hw : s.workers[w]? = some .idle)
      (hq : s.queue = [])
      (hcl : s.closed = true) :
      Step h items s { s with workers := s.workers.set w .done }
  | ambientCancel (s : ExecState T R E)
      (ha : s.ambientCancelled = false) :
      Step h items s { s with ambientCancelled := true, childCancelled := true }

/-- Reachability of a pool state from the start of `Execute`. -/
def Reach {T R E : Type} (h : MapConcurrentHandler T R E) (items : List T)
    (amb0 : Bool) (s : ExecState T R E) : Prop :=
  Relation.ReflTransGen (Step h items) (initState h items amb0) s

/-- All spawned workers have exited: exactly the condition on which
`wg.Wait()` returns and `Execute` proceeds to build its return value. -/
def AllWorkersDone {T R E : Type} (s : ExecState T R E) : Prop :=
  ∀ w ∈ s.workers, w = WStatus.done

/-- Model of `ctx.Err()` at return time. -/
def ctxErrOf {T R E : Type} (eCtx : E) (s : ExecState T R E) : Option E :=
  if s.ambientCancelled then some eCtx else none

/-- The error slice after `errs = append(errs, ctx.Err())`. -/
def finalErrs {T R E : Type} (eCtx : E) (s : ExecState T R E) : List (Option E) :=
  s.errs ++ [ctxErrOf eCtx s]

/-- Model of `errors.Join`: drops nils, returns nil when nothing remains,
otherwise an aggregate carrying every non-nil error in order. -/
def joinErrors {E : Type} (l : List (Option E)) : Option (List E) :=
  let es := l.filterMap id
  if es.isEmpty then none else some es

/-- Outcome of an `Execute` call: a panic, or a returned pair of optional
output slice and optional aggregated error (plus the ghost invocation log). -/
inductive ExecOutcome (R E : Type) where
  | panicked
  | ret (output : Option (List R)) (err : Option (List E)) (calls : List CallLog)
deriving DecidableEq

/-- The value `Execute` returns from a finished pool state: join the error
slots plus the appended ambient-context error; on any error return nil
output, otherwise return the result slice (unassigned slots hold the zero
value `zero` of the element type). -/
def execResult {T R E : Type} (zero : R) (eCtx : E) (s : ExecState T R E) : ExecOutcome R E :=
  match joinErrors (finalErrs eCtx s) with
  | some es => .ret none (some es) s.calls
  | none => .ret (some (s.results.map (fun o => o.getD zero))) none s.calls

/-- Full behaviour of `Execute ctx items`: the empty input returns nil, nil
before touching the pool; a negative `numWorkers` makes `wg.Add(numWorkers)`
panic; otherwise the pool runs to a state where every worker has exited and
the return value is built from that state. -/
inductive ExecBehavior {T R E : Type} (h : MapConcurrentHandler T R E) (zero : R) (eCtx : E)
    (items : List T) (amb0 : Bool) : ExecOutcome R E → Prop where
  | empty (he : items = []) : ExecBehavior h zero eCtx items amb0 (.ret none none [])
  | negPanic (hne : items ≠ []) (hneg : numWorkersOf h items.length < 0) :
      ExecBehavior h zero eCtx items amb0 .panicked
  | completes (s : ExecState T R E) (hne : items ≠ [])
      (hnn : 0 ≤ numWorkersOf h items.length)
      (hreach : Reach h items amb0 s) (hdone : AllWorkersDone s) :
      ExecBehavior h zero eCtx items amb0 (execResult zero eCtx s)

/-- The invariant maintained by every `Execute` pool state: slot-list sizes,
dispatcher progress, the channel contents, worker obligations, the
exactly-one-writer-per-index discipline, soundness of recorded slots, and the
bookkeeping needed to reason about cancellation and termination. -/
structure PoolInv {T R E : Type} (h : MapConcurrentHandler T R E) (items : List T)
    (s : ExecState T R E) : Prop where
  results_len : s.results.length = items.length
  errs_len : s.errs.length = items.length + 1
  workers_len : s.workers.length = workerCount h items.length
  sent_le : s.sent ≤ items.length
  closed_dispatcher : s.closed = true → s.dispatcherDone = true
  closed_sent : s.closed = true → s.childCancelled = true ∨ s.sent = items.length
  queue_items : ∀ p ∈ s.queue, p.1 < s.sent ∧ items[p.1]? = some p.2
  queue_nodup : (s.queue.map Prod.fst).Nodup
  queue_not_written : ∀ p ∈ s.queue, resAt s p.1 = none ∧ errAt s p.1 = none
  queue_not_busy : ∀ p ∈ s.queue, ∀ (w i : Nat) (v : T), s.workers[w]? = some (WStatus.busy i v) → i ≠ p.1
  busy_items : ∀ (w i : Nat) (v : T), s.workers[w]? = some (WStatus.busy i v) → i < s.sent ∧ items[i]? = some v
  busy_nodup : ∀ (w w' i : Nat) (v v' : T), w ≠ w' → s.workers[w]? = some (WStatus.busy i v) →
      s.workers[w']? = some (WStatus.busy i v') → False
  busy_not_written : ∀ (w i : Nat) (v : T), s.workers[w]? = some (WStatus.busy i v) →
      resAt s i = none ∧ errAt s i = none
  mutex : ∀ i, resAt s i = none ∨ errAt s i = none
  res_sound : ∀ i r, resAt s i = some r → ∃ b v, items[i]? = some v ∧ h.mapFunc b v = .ok r
  err_sound : ∀ i e, errAt s i = some e → ∃ b v, items[i]? = some v ∧ h.mapFunc b v = .error e
  err_last : errAt s items.length = none
  written_lt_sent : ∀ i, (resAt s i ≠ none ∨ errAt s i ≠ none) → i < s.sent
  coverage : ∀ i, i < s.sent → (∃ p ∈ s.queue, p.1 = i) ∨
      (∃ (w : Nat) (v : T), s.workers[w]? = some (WStatus.busy i v)) ∨ resAt s i ≠ none ∨ errAt s i ≠ none
  child_reason : s.childCancelled = true →
      s.ambientCancelled = true ∨ (h.stopOnError = true ∧ ∃ i e, errAt s i = some e)
  done_reason : s.childCancelled = false → (∃ w ∈ s.workers, w = WStatus.done) →
      s.closed = true ∧ s.queue = []
  no_workers : s.workers.length = 0 →
      (∀ i, resAt s i = none ∧ errAt s i = none) ∧ s.calls = []
  calls_ambient : ∀ c ∈ s.calls, c.ctxPassed = CtxTag.ambient

/-! Concrete executions used to instantiate the theorems. -/

def hOkEx : MapConcurrentHandler Nat Nat Nat :=
  (MapConcurrent (fun _ t => .ok (t + 1))).WithConcurrency 1

def sOkEx : ExecState Nat Nat Nat :=
  { sent := 1, queue := [], closed := true, dispatcherDone := true,
    childCancelled := false, ambientCancelled := false,
    results := [some 6], errs := [none, none], workers := [WStatus.done],
    calls := [⟨0, CtxTag.ambient⟩] }

def hErrEx : MapConcurrentHandler Nat Nat Nat :=
  (MapConcurrent (fun _ _ => .error 7)).WithConcurrency 1

def sErrEx : ExecState Nat Nat Nat :=
  { sent := 1, queue := [], closed := true, dispatcherDone := true,
    childCancelled := true, ambientCancelled := false,
    results := [none], errs := [some 7, none], workers := [WStatus.done],
    calls := [⟨0, CtxTag.ambient⟩] }

def hColEx : MapConcurrentHandler Nat Nat Nat :=
  ((MapConcurrent (fun _ t => .error t)).WithConcurrency 1).WithStopOnError false

def sColEx : ExecState Nat Nat Nat :=
  { sent := 2, queue := [], closed := true, dispatcherDone := true,
    childCancelled := false, ambientCancelled := false,
    results := [none, none], errs := [some 1, some 2, none], workers := [WStatus.done],
    calls := [⟨0, CtxTag.ambient⟩, ⟨1, CtxTag.ambient⟩] }

def hCtxEx : MapConcurrentHandler Nat Nat Nat := MapConcurrent (fun _ t => .ok t)

def sCtxEx : ExecState Nat Nat Nat :=
  { sent := 0, queue := [], closed := false, dispatcherDone := false,
    childCancelled := true, ambientCancelled := true,
    results := [none], errs := [none, none], workers := [WStatus.done],
    calls := [] }

def hNegEx : MapConcurrentHandler Nat Nat Nat :=
  (MapConcurrent (fun _ t => .ok t)).WithConcurrency (-1)

def hZeroEx : MapConcurrentHandler Nat Nat Nat :=
  (MapConcurrent (fun _ t => .ok t)).WithConcurrency 0

theorem splitColon_ne_nil (s : Str) : splitColon s ≠ [] := by
  match s with
  | [] => simp [splitColon]
  | c :: rest =>
    simp only [splitColon]
    split
    · simp
    · split <;> simp

theorem joinColon_cons_cons (c : Char) (p : Str) (ps : List Str) :
    joinColon ((c :: p) :: ps) = c :: joinColon (p :: ps) := by
  cases ps with
  | nil => rfl
  | cons q qs => simp [joinColon]

theorem splitColon_cons (c : Char) (rest : Str) (p : Str) (ps : List Str)
    (h : splitColon rest = p :: ps) :
    splitColon (c :: rest) = if c = ':' then [] :: p :: ps else (c :: p) :: ps := by
  simp only [splitColon, h]

theorem join_split (s : Str) : joinColon (splitColon s) = s := by
  induction s with
  | nil => rfl
  | cons c rest ih =>
    cases h : splitColon rest with
    | nil => exact absurd h (splitColon_ne_nil rest)
    | cons p ps =>
      rw [h] at ih
      rw [splitColon_cons c rest p ps h]
      by_cases hc : c = ':'
      · subst hc
        rw [if_pos rfl]
        show ':' :: joinColon (p :: ps) = ':' :: rest
        rw [ih]
      · rw [if_neg hc, joinColon_cons_cons, ih]

/-- C10: round-trip for parsed identifiers: whenever `ParseID` succeeds on a
string `s` with result `id`, the rendering `IDString id` equals `s`, and
parsing that rendering succeeds again with the same `id`. -/
theorem parseID_roundTrip (s : Str) (id : ID) (h : ParseID s = .ok id) :
    IDString id = s ∧ ParseID (IDString id) = .ok id := by
  have hstr : IDString id = s := by
    unfold ParseID at h
    split at h
    case h_1 environment t objectID heq =>
      split at h
      · exact absurd h (by simp)
      · split at h
        case h_1 e hpt => exact absurd h (by simp)
        case h_2 objectType hpt =>
          split at h
          · exact absurd h (by simp)
          · have hid : id = ⟨environment, objectType, objectID⟩ := by
              cases h; rfl
            have hty : objectType = t := by
              unfold ParseType at hpt
              split at hpt
              · exact absurd hpt (by simp)
              · cases hpt; rfl
            subst hid
            have hj : IDString ⟨environment, objectType, objectID⟩ =
                joinColon [environment, objectType, objectID] := by
              simp [IDString, joinColon]
            rw [hj, hty, ← heq, join_split]
    case h_2 => exact absurd h (by simp)
  exact ⟨hstr, by rw [hstr]; exact h⟩

theorem parseID_roundTrip_w :
    IDString ⟨("vibe").toList, ("user").toList, ("abc").toList⟩ = ("vibe:user:abc").toList ∧
    ParseID (IDString ⟨("vibe").toList, ("user").toList, ("abc").toList⟩) =
      .ok ⟨("vibe").toList, ("user").toList, ("abc").toList⟩ :=
  parseID_roundTrip (("vibe:user:abc").toList)
    ⟨("vibe").toList, ("user").toList, ("abc").toList⟩ (by rfl)

/-! Helper lemmas about indexed reads of slot lists. -/

theorem getD_none_set_self {α : Type} (l : List (Option α)) (i : Nat) (a : Option α)
    (hlt : i < l.length) : ((l.set i a)[i]?).getD none = a := by
  rw [List.getElem?_set_eq_of_lt a hlt]
  rfl

theorem getD_none_set_ne {α : Type} (l : List (Option α)) (i j : Nat) (a : Option α)
    (hne : i ≠ j) : ((l.set i a)[j]?).getD none = (l[j]?).getD none := by
  rw [List.getElem?_set_ne hne]

theorem getD_none_replicate {α : Type} (n i : Nat) :
    (((List.replicate n (none : Option α)))[i]?).getD none = none := by
  rw [List.getElem?_replicate]
  split <;> rfl

theorem mem_of_getElem?_eq_some {α : Type} {l : List α} {i : Nat} {x : α}
    (hx : l[i]? = some x) : x ∈ l := by
  obtain ⟨hlt, rfl⟩ := List.getElem?_eq_some.mp hx
  exact List.getElem_mem hlt

theorem lt_length_of_getElem?_eq_some {α : Type} {l : List α} {i : Nat} {x : α}
    (hx : l[i]? = some x) : i < l.length :=
  (List.getElem?_eq_some.mp hx).1

theorem inv_init {T R E : Type} (h : MapConcurrentHandler T R E) (items : List T)
    (amb0 : Bool) : PoolInv h items (initState h items amb0) := by
  have hres : ∀ i, resAt (initState h items amb0) i = none := by
    intro i
    simp only [resAt, initState]
    exact getD_none_replicate _ _
  have herr : ∀ i, errAt (initState h items amb0) i = none := by
    intro i
    simp only [errAt, initState]
    exact getD_none_replicate _ _
  refine
    { results_len := by simp [initState]
      errs_len := by simp [initState]
      workers_len := by simp [initState]
      sent_le := by simp [initState]
      closed_dispatcher := by simp [initState]
      closed_sent := by simp [initState]
      queue_items := by simp [initState]
      queue_nodup := by simp [initState]
      queue_not_written := by simp [initState]
      queue_not_busy := by simp [initState]
      busy_items := ?_
      busy_nodup := ?_
      busy_not_written := ?_
      mutex := fun i => Or.inl (hres i)
      res_sound := fun i r hr => absurd hr (by rw [hres i]; simp)
      err_sound := fun i e he => absurd he (by rw [herr i]; simp)
      err_last := herr _
      written_lt_sent := fun i hi => by
        rcases hi with hi | hi
        · exact absurd (hres i) hi
        · exact absurd (herr i) hi
      coverage := by simp [initState]
      child_reason := by
        intro hc
        left
        simpa [initState] using hc
      done_reason := by
        intro _ hdone
        obtain ⟨w, hw, hwd⟩ := hdone
        have := List.eq_of_mem_replicate (by simpa [initState] using hw)
        simp [this] at hwd
      no_workers := fun _ => ⟨fun i => ⟨hres i, herr i⟩, by simp [initState]⟩
      calls_ambient := by simp [initState] }
  · intro w i v hw
    have hmem : WStatus.busy i v ∈ (initState h items amb0).workers :=
      mem_of_getElem?_eq_some hw
    simp [initState] at hmem
  · intro w w' i v v' hne hw hw'
    have hmem : WStatus.busy i v ∈ (initState h items amb0).workers :=
      mem_of_getElem?_eq_some hw
    simp [initState] at hmem
  · intro w i v hw
    have hmem : WStatus.busy i v ∈ (initState h items amb0).workers :=
      mem_of_getElem?_eq_some hw
    simp [initState] at hmem

theorem getElem?_none_of_len {α : Type} (l : List α) (i : Nat) (hle : l.length ≤ i) :
    l[i]? = none := by
  exact List.getElem?_eq_none hle

theorem inv_dispatchSend {T R E : Type} {h : MapConcurrentHandler T R E} {items : List T}
    {s : ExecState T R E} (hInv : PoolInv h items s) (t : T)
    (hd : s.dispatcherDone = false) (hi : items[s.sent]? = some t) :
    PoolInv h items { s with sent := s.sent + 1, queue := s.queue ++ [(s.sent, t)] } := by
  have hlt : s.sent < items.length := lt_length_of_getElem?_eq_some hi
  have hnwr : resAt s s.sent = none := by
    by_contra hres
    exact absurd (hInv.written_lt_sent s.sent (Or.inl hres)) (Nat.lt_irrefl _)
  have hnwe : errAt s s.sent = none := by
    by_contra herr
    exact absurd (hInv.written_lt_sent s.sent (Or.inr herr)) (Nat.lt_irrefl _)
  refine
    { results_len := hInv.results_len
      errs_len := hInv.errs_len
      workers_len := hInv.workers_len
      sent_le := hlt
      closed_dispatcher := hInv.closed_dispatcher
      closed_sent := ?_
      queue_items := ?_
      queue_nodup := ?_
      queue_not_written := ?_
      queue_not_busy := ?_
      busy_items := ?_
      busy_nodup := hInv.busy_nodup
      busy_not_written := hInv.busy_not_written
      mutex := hInv.mutex
      res_sound := hInv.res_sound
      err_sound := hInv.err_sound
      err_last := hInv.err_last
      written_lt_sent := ?_
      coverage := ?_
      child_reason := hInv.child_reason
      done_reason := ?_
      no_workers := hInv.no_workers
      calls_ambient := hInv.calls_ambient }
  · intro hcl
    rcases hInv.closed_sent hcl with hc | hs
    · exact Or.inl hc
    · exact absurd hs (Nat.ne_of_lt hlt)
  · intro p hp
    rcases List.mem_append.mp hp with hp | hp
    · obtain ⟨h1, h2⟩ := hInv.queue_items p hp
      exact ⟨Nat.lt_succ_of_lt h1, h2⟩
    · rcases List.mem_singleton.mp hp with rfl
      exact ⟨Nat.lt_succ_self _, hi⟩
  · rw [List.map_append]
    rw [List.nodup_append]
    refine ⟨hInv.queue_nodup, List.nodup_singleton _, ?_⟩
    intro a ha hb
    obtain ⟨p, hp, rfl⟩ := List.mem_map.mp ha
    rcases List.mem_singleton.mp hb with h
    exact absurd ((hInv.queue_items p hp).1) (by rw [h]; exact Nat.lt_irrefl _)
  · intro p hp
    rcases List.mem_append.mp hp with hp | hp
    · exact hInv.queue_not_written p hp
    · rcases List.mem_singleton.mp hp with rfl
      exact ⟨hnwr, hnwe⟩
  · intro p hp w i v hw
    rcases List.mem_append.mp hp with hp | hp
    · exact hInv.queue_not_busy p hp w i v hw
    · rcases List.mem_singleton.mp hp with rfl
      exact Nat.ne_of_lt (hInv.busy_items w i v hw).1
  · intro w i v hw
    obtain ⟨h1, h2⟩ := hInv.busy_items w i v hw
    exact ⟨Nat.lt_succ_of_lt h1, h2⟩
  · intro i hwr
    exact Nat.lt_succ_of_lt (hInv.written_lt_sent i hwr)
  · intro i hi2
    rcases Nat.lt_succ_iff_lt_or_eq.mp hi2 with hi2 | rfl
    · rcases hInv.coverage i hi2 with ⟨p, hp, rfl⟩ | hcov | hcov | hcov
      · exact Or.inl ⟨p, List.mem_append_left _ hp, rfl⟩
      · exact Or.inr (Or.inl hcov)
      · exact Or.inr (Or.inr (Or.inl hcov))
      · exact Or.inr (Or.inr (Or.inr hcov))
    · exact Or.inl ⟨(s.sent, t), List.mem_append_right _ (List.mem_singleton.mpr rfl), rfl⟩
  · intro hch hdone
    have hcl := (hInv.done_reason hch hdone).1
    have := hInv.closed_dispatcher hcl
    rw [hd] at this
    exact absurd this (by simp)

theorem inv_dispatchExitCancel {T R E : Type} {h : MapConcurrentHandler T R E} {items : List T}
    {s : ExecState T R E} (hInv : PoolInv h items s)
    (hc : s.childCancelled = true) :
    PoolInv h items { s with dispatcherDone := true, closed := true } :=
  { results_len := hInv.results_len
    errs_len := hInv.errs_len
    workers_len := hInv.workers_len
    sent_le := hInv.sent_le
    closed_dispatcher := fun _ => rfl
    closed_sent := fun _ => Or.inl hc
    queue_items := hInv.queue_items
    queue_nodup := hInv.queue_nodup
    queue_not_written := hInv.queue_not_written
    queue_not_busy := hInv.queue_not_busy
    busy_items := hInv.busy_items
    busy_nodup := hInv.busy_nodup
    busy_not_written := hInv.busy_not_written
    mutex := hInv.mutex
    res_sound := hInv.res_sound
    err_sound := hInv.err_sound
    err_last := hInv.err_last
    written_lt_sent := hInv.written_lt_sent
    coverage := hInv.coverage
    child_reason := hInv.child_reason
    done_reason := by
      intro hch
      rw [hc] at hch
      exact absurd hch (by simp)
    no_workers := hInv.no_workers
    calls_ambient := hInv.calls_ambient }

theorem inv_dispatchClose {T R E : Type} {h : MapConcurrentHandler T R E} {items : List T}
    {s : ExecState T R E} (hInv : PoolInv h items s)
    (hd : s.dispatcherDone = false) (hs : s.sent = items.length) :
    PoolInv h items { s with dispatcherDone := true, closed := true } :=
  { results_len := hInv.results_len
    errs_len := hInv.errs_len
    workers_len := hInv.workers_len
    sent_le := hInv.sent_le
    closed_dispatcher := fun _ => rfl
    closed_sent := fun _ => Or.inr hs
    queue_items := hInv.queue_items
    queue_nodup := hInv.queue_nodup
    queue_not_written := hInv.queue_not_written
    queue_not_busy := hInv.queue_not_busy
    busy_items := hInv.busy_items
    busy_nodup := hInv.busy_nodup
    busy_not_written := hInv.busy_not_written
    mutex := hInv.mutex
    res_sound := hInv.res_sound
    err_sound := hInv.err_sound
    err_last := hInv.err_last
    written_lt_sent := hInv.written_lt_sent
    coverage := hInv.coverage
    child_reason := hInv.child_reason
    done_reason := by
      intro hch hdone
      have hcl := (hInv.done_reason hch hdone).1
      have := hInv.closed_dispatcher hcl
      rw [hd] at this
      exact absurd this (by simp)
    no_workers := hInv.no_workers
    calls_ambient := hInv.calls_ambient }

theorem inv_ambientCancel {T R E : Type} {h : MapConcurrentHandler T R E} {items : List T}
    {s : ExecState T R E} (hInv : PoolInv h items s) :
    PoolInv h items { s with ambientCancelled := true, childCancelled := true } :=
  { results_len := hInv.results_len
    errs_len := hInv.errs_len
    workers_len := hInv.workers_len
    sent_le := hInv.sent_le
    closed_dispatcher := hInv.closed_dispatcher
    closed_sent := fun _ => Or.inl rfl
    queue_items := hInv.queue_items
    queue_nodup := hInv.queue_nodup
    queue_not_written := hInv.queue_not_written
    queue_not_busy := hInv.queue_not_busy
    busy_items := hInv.busy_items
    busy_nodup := hInv.busy_nodup
    busy_not_written := hInv.busy_not_written
    mutex := hInv.mutex
    res_sound := hInv.res_sound
    err_sound := hInv.err_sound
    err_last := hInv.err_last
    written_lt_sent := hInv.written_lt_sent
    coverage := hInv.coverage
    child_reason := fun _ => Or.inl rfl
    done_reason := by
      intro hch
      exact absurd hch (by simp)
    no_workers := hInv.no_workers
    calls_ambient := hInv.calls_ambient }

theorem inv_workerPickup {T R E : Type} {h : MapConcurrentHandler T R E} {items : List T}
    {s : ExecState T R E} (hInv : PoolInv h items s) (w i : Nat) (v : T) (rest : List (Nat × T))
    (hw : s.workers[w]? = some .idle) (hq : s.queue = (i, v) :: rest) :
    PoolInv h items { s with queue := rest,
                             workers := s.workers.set w (WStatus.busy i v),
                             calls := s.calls ++ [⟨i, .ambient⟩] } := by
  have hwlt : w < s.workers.length := lt_length_of_getElem?_eq_some hw
  have hhead : (i, v) ∈ s.queue := by rw [hq]; exact List.mem_cons_self _ _
  have hisent := hInv.queue_items (i, v) hhead
  have hnodup : i ∉ rest.map Prod.fst ∧ (rest.map Prod.fst).Nodup := by
    have := hInv.queue_nodup
    rw [hq] at this
    exact List.nodup_cons.mp this
  have hset_self : (s.workers.set w (WStatus.busy i v))[w]? = some (WStatus.busy i v) :=
    List.getElem?_set_eq_of_lt _ hwlt
  have hset_ne : ∀ u : Nat, u ≠ w →
      (s.workers.set w (WStatus.busy i v))[u]? = s.workers[u]? := by
    intro u hu
    exact List.getElem?_set_ne (fun hwu => hu hwu.symm)
  refine
    { results_len := hInv.results_len
      errs_len := hInv.errs_len
      workers_len := by
        dsimp only
        rw [List.length_set]
        exact hInv.workers_len
      sent_le := hInv.sent_le
      closed_dispatcher := hInv.closed_dispatcher
      closed_sent := hInv.closed_sent
      queue_items := ?_
      queue_nodup := hnodup.2
      queue_not_written := ?_
      queue_not_busy := ?_
      busy_items := ?_
      busy_nodup := ?_
      busy_not_written := ?_
      mutex := hInv.mutex
      res_sound := hInv.res_sound
      err_sound := hInv.err_sound
      err_last := hInv.err_last
      written_lt_sent := hInv.written_lt_sent
      coverage := ?_
      child_reason := hInv.child_reason
      done_reason := ?_
      no_workers := ?_
      calls_ambient := ?_ }
  · intro p hp
    exact hInv.queue_items p (by rw [hq]; exact List.mem_cons_of_mem _ hp)
  · intro p hp
    exact hInv.queue_not_written p (by rw [hq]; exact List.mem_cons_of_mem _ hp)
  · intro p hp u j v2 hu
    dsimp only at hp hu
    by_cases huw : u = w
    · rw [huw, hset_self] at hu
      injection hu with hu
      cases hu
      intro hip
      exact hnodup.1 (by
        rw [hip]
        exact List.mem_map.mpr ⟨p, hp, rfl⟩)
    · rw [hset_ne u huw] at hu
      exact hInv.queue_not_busy p (by rw [hq]; exact List.mem_cons_of_mem _ hp) u j v2 hu
  · intro u j v2 hu
    dsimp only at hu
    by_cases huw : u = w
    · rw [huw, hset_self] at hu
      injection hu with hu
      cases hu
      exact hisent
    · rw [hset_ne u huw] at hu
      exact hInv.busy_items u j v2 hu
  · intro u u' j v2 v2' hne hu hu'
    dsimp only at hu hu'
    by_cases huw : u = w
    · rw [huw, hset_self] at hu
      injection hu with hu
      cases hu
      have hu'w : u' ≠ w := fun hh => hne (huw.trans hh.symm)
      rw [hset_ne u' hu'w] at hu'
      exact hInv.queue_not_busy (i, v) hhead u' i v2' hu' rfl
    · rw [hset_ne u huw] at hu
      by_cases hu'w : u' = w
      · rw [hu'w, hset_self] at hu'
        injection hu' with hu'
        cases hu'
        exact hInv.queue_not_busy (i, v) hhead u i v2 hu rfl
      · rw [hset_ne u' hu'w] at hu'
        exact hInv.busy_nodup u u' j v2 v2' hne hu hu'
  · intro u j v2 hu
    dsimp only at hu
    by_cases huw : u = w
    · rw [huw, hset_self] at hu
      injection hu with hu
      cases hu
      exact hInv.queue_not_written (i, v) hhead
    · rw [hset_ne u huw] at hu
      exact hInv.busy_not_written u j v2 hu
  · intro j hj
    dsimp only at hj ⊢
    rcases hInv.coverage j hj with ⟨p, hp, hpj⟩ | ⟨u, v2, hu⟩ | hcov | hcov
    · rw [hq] at hp
      rcases List.mem_cons.mp hp with rfl | hp
      · exact Or.inr (Or.inl ⟨w, v, by rw [← hpj]; exact hset_self⟩)
      · exact Or.inl ⟨p, hp, hpj⟩
    · have huw : u ≠ w := by
        intro hh
        subst hh
        rw [hw] at hu
        exact absurd hu (by simp)
      exact Or.inr (Or.inl ⟨u, v2, by rw [hset_ne u huw]; exact hu⟩)
    · exact Or.inr (Or.inr (Or.inl hcov))
    · exact Or.inr (Or.inr (Or.inr hcov))
  · intro hch hdone
    obtain ⟨w', hw', hwd⟩ := hdone
    dsimp only at hw'
    subst hwd
    rcases List.mem_or_eq_of_mem_set hw' with hw' | hw'
    · have := (hInv.done_reason hch ⟨_, hw', rfl⟩).2
      rw [hq] at this
      exact absurd this (by simp)
    · exact absurd hw' (by simp)
  · intro h0
    dsimp only at h0
    rw [List.length_set] at h0
    omega
  · intro c hc
    dsimp only at hc
    rcases List.mem_append.mp hc with hc | hc
    · exact hInv.calls_ambient c hc
    · rcases List.mem_singleton.mp hc with rfl
      rfl

theorem inv_workerFinishOk {T R E : Type} {h : MapConcurrentHandler T R E} {items : List T}
    {s : ExecState T R E} (hInv : PoolInv h items s) (w i : Nat) (v : T) (r : R)
    (hw : s.workers[w]? = some (WStatus.busy i v))
    (hf : h.mapFunc s.ambientCancelled v = .ok r) :
    PoolInv h items { s with results := s.results.set i (some r),
                             workers := s.workers.set w .idle } := by
  have hwlt : w < s.workers.length := lt_length_of_getElem?_eq_some hw
  have hbi := hInv.busy_items w i v hw
  have hbnw := hInv.busy_not_written w i v hw
  have hilt : i < s.results.length := by
    rw [hInv.results_len]
    exact lt_of_lt_of_le hbi.1 hInv.sent_le
  have hres_self : ((s.results.set i (some r))[i]?).getD none = some r :=
    getD_none_set_self _ _ _ hilt
  have hres_ne : ∀ j : Nat, i ≠ j →
      ((s.results.set i (some r))[j]?).getD none = resAt s j := by
    intro j hj
    exact getD_none_set_ne _ _ _ _ hj
  have hwset_self : (s.workers.set w WStatus.idle)[w]? = some WStatus.idle :=
    List.getElem?_set_eq_of_lt _ hwlt
  have hwset_ne : ∀ u : Nat, u ≠ w →
      (s.workers.set w WStatus.idle)[u]? = s.workers[u]? := by
    intro u hu
    exact List.getElem?_set_ne (fun hh => hu hh.symm)
  refine
    { results_len := by
        dsimp only
        rw [List.length_set]
        exact hInv.results_len
      errs_len := hInv.errs_len
      workers_len := by
        dsimp only
        rw [List.length_set]
        exact hInv.workers_len
      sent_le := hInv.sent_le
      closed_dispatcher := hInv.closed_dispatcher
      closed_sent := hInv.closed_sent
      queue_items := hInv.queue_items
      queue_nodup := hInv.queue_nodup
      queue_not_written := ?_
      queue_not_busy := ?_
      busy_items := ?_
      busy_nodup := ?_
      busy_not_written := ?_
      mutex := ?_
      res_sound := ?_
      err_sound := hInv.err_sound
      err_last := hInv.err_last
      written_lt_sent := ?_
      coverage := ?_
      child_reason := hInv.child_reason
      done_reason := ?_
      no_workers := ?_
      calls_ambient := hInv.calls_ambient }
  · intro p hp
    dsimp only at hp
    have hne : i ≠ p.1 := hInv.queue_not_busy p hp w i v hw
    refine ⟨?_, (hInv.queue_not_written p hp).2⟩
    show ((s.results.set i (some r))[p.1]?).getD none = none
    rw [hres_ne p.1 hne]
    exact (hInv.queue_not_written p hp).1
  · intro p hp u j v2 hu
    dsimp only at hp hu
    by_cases huw : u = w
    · rw [huw, hwset_self] at hu
      exact absurd hu (by simp)
    · rw [hwset_ne u huw] at hu
      exact hInv.queue_not_busy p hp u j v2 hu
  · intro u j v2 hu
    dsimp only at hu
    by_cases huw : u = w
    · rw [huw, hwset_self] at hu
      exact absurd hu (by simp)
    · rw [hwset_ne u huw] at hu
      exact hInv.busy_items u j v2 hu
  · intro u u' j v2 v2' hne hu hu'
    dsimp only at hu hu'
    by_cases huw : u = w
    · rw [huw, hwset_self] at hu
      exact absurd hu (by simp)
    · rw [hwset_ne u huw] at hu
      by_cases hu'w : u' = w
      · rw [hu'w, hwset_self] at hu'
        exact absurd hu' (by simp)
      · rw [hwset_ne u' hu'w] at hu'
        exact hInv.busy_nodup u u' j v2 v2' hne hu hu'
  · intro u j v2 hu
    dsimp only at hu
    by_cases huw : u = w
    · rw [huw, hwset_self] at hu
      exact absurd hu (by simp)
    · rw [hwset_ne u huw] at hu
      have hji : j ≠ i := fun hh => hInv.busy_nodup u w i v2 v huw (hh ▸ hu) hw
      refine ⟨?_, (hInv.busy_not_written u j v2 hu).2⟩
      show ((s.results.set i (some r))[j]?).getD none = none
      rw [hres_ne j (Ne.symm hji)]
      exact (hInv.busy_not_written u j v2 hu).1
  · intro j
    by_cases hji : j = i
    · subst hji
      exact Or.inr hbnw.2
    · rcases hInv.mutex j with hm | hm
      · refine Or.inl ?_
        show ((s.results.set i (some r))[j]?).getD none = none
        rw [hres_ne j (fun hh => hji hh.symm)]
        exact hm
      · exact Or.inr hm
  · intro j r' hr'
    have hr2 : ((s.results.set i (some r))[j]?).getD none = some r' := hr'
    by_cases hji : j = i
    · subst hji
      rw [hres_self] at hr2
      injection hr2 with hr2
      subst hr2
      exact ⟨s.ambientCancelled, v, hbi.2, hf⟩
    · rw [hres_ne j (fun hh => hji hh.symm)] at hr2
      exact hInv.res_sound j r' hr2
  · intro j hj
    by_cases hji : j = i
    · subst hji
      exact hbi.1
    · refine hInv.written_lt_sent j ?_
      rcases hj with hj | hj
      · have hj2 : ((s.results.set i (some r))[j]?).getD none ≠ none := hj
        rw [hres_ne j (fun hh => hji hh.symm)] at hj2
        exact Or.inl hj2
      · exact Or.inr hj
  · intro j hj
    rcases hInv.coverage j hj with ⟨p, hp, hpj⟩ | ⟨u, v2, hu⟩ | hcov | hcov
    · exact Or.inl ⟨p, hp, hpj⟩
    · by_cases huw : u = w
      · rw [huw, hw] at hu
        injection hu with hu
        cases hu
        refine Or.inr (Or.inr (Or.inl ?_))
        show ((s.results.set i (some r))[i]?).getD none ≠ none
        rw [hres_self]
        simp
      · refine Or.inr (Or.inl ⟨u, v2, ?_⟩)
        show (s.workers.set w WStatus.idle)[u]? = some (WStatus.busy j v2)
        rw [hwset_ne u huw]
        exact hu
    · by_cases hji : j = i
      · subst hji
        refine Or.inr (Or.inr (Or.inl ?_))
        show ((s.results.set j (some r))[j]?).getD none ≠ none
        rw [hres_self]
        simp
      · refine Or.inr (Or.inr (Or.inl ?_))
        show ((s.results.set i (some r))[j]?).getD none ≠ none
        rw [hres_ne j (fun hh => hji hh.symm)]
        exact hcov
    · exact Or.inr (Or.inr (Or.inr hcov))
  · intro hch hdone
    obtain ⟨w', hw', hwd⟩ := hdone
    dsimp only at hw'
    subst hwd
    rcases List.mem_or_eq_of_mem_set hw' with hw' | hw'
    · exact hInv.done_reason hch ⟨_, hw', rfl⟩
    · exact absurd hw' (by simp)
  · intro h0
    dsimp only at h0
    rw [List.length_set] at h0
    omega

theorem inv_workerFinishErrStop {T R E : Type} {h : MapConcurrentHandler T R E} {items : List T}
    {s : ExecState T R E} (hInv : PoolInv h items s) (w i : Nat) (v : T) (e : E)
    (hw : s.workers[w]? = some (WStatus.busy i v))
    (hf : h.mapFunc s.ambientCancelled v = .error e)
    (hstop : h.stopOnError = true) :
    PoolInv h items { s with errs := s.errs.set i (some e),
                             childCancelled := true,
                             workers := s.workers.set w .done } := by
  have hwlt : w < s.workers.length := lt_length_of_getElem?_eq_some hw
  have hbi := hInv.busy_items w i v hw
  have hbnw := hInv.busy_not_written w i v hw
  have hiN : i < items.length := lt_of_lt_of_le hbi.1 hInv.sent_le
  have hilt : i < s.errs.length := by
    rw [hInv.errs_len]
    omega
  have herr_self : ((s.errs.set i (some e))[i]?).getD none = some e :=
    getD_none_set_self _ _ _ hilt
  have herr_ne : ∀ j : Nat, i ≠ j →
      ((s.errs.set i (some e))[j]?).getD none = errAt s j := by
    intro j hj
    exact getD_none_set_ne _ _ _ _ hj
  have hwset_self : (s.workers.set w WStatus.done)[w]? = some WStatus.done :=
    List.getElem?_set_eq_of_lt _ hwlt
  have hwset_ne : ∀ u : Nat, u ≠ w →
      (s.workers.set w WStatus.done)[u]? = s.workers[u]? := by
    intro u hu
    exact List.getElem?_set_ne (fun hh => hu hh.symm)
  refine
    { results_len := hInv.results_len
      errs_len := by
        dsimp only
        rw [List.length_set]
        exact hInv.errs_len
      workers_len := by
        dsimp only
        rw [List.length_set]
        exact hInv.workers_len
      sent_le := hInv.sent_le
      closed_dispatcher := hInv.closed_dispatcher
      closed_sent := fun _ => Or.inl rfl
      queue_items := hInv.queue_items
      queue_nodup := hInv.queue_nodup
      queue_not_written := ?_
      queue_not_busy := ?_
      busy_items := ?_
      busy_nodup := ?_
      busy_not_written := ?_
      mutex := ?_
      res_sound := hInv.res_sound
      err_sound := ?_
      err_last := ?_
      written_lt_sent := ?_
      coverage := ?_
      child_reason := fun _ => Or.inr ⟨hstop, i, e, herr_self⟩
      done_reason := ?_
      no_workers := ?_
      calls_ambient := hInv.calls_ambient }
  · intro p hp
    dsimp only at hp
    have hne : i ≠ p.1 := hInv.queue_not_busy p hp w i v hw
    refine ⟨(hInv.queue_not_written p hp).1, ?_⟩
    show ((s.errs.set i (some e))[p.1]?).getD none = none
    rw [herr_ne p.1 hne]
    exact (hInv.queue_not_written p hp).2
  · intro p hp u j v2 hu
    dsimp only at hp hu
    by_cases huw : u = w
    · rw [huw, hwset_self] at hu
      exact absurd hu (by simp)
    · rw [hwset_ne u huw] at hu
      exact hInv.queue_not_busy p hp u j v2 hu
  · intro u j v2 hu
    dsimp only at hu
    by_cases huw : u = w
    · rw [huw, hwset_self] at hu
      exact absurd hu (by simp)
    · rw [hwset_ne u huw] at hu
      exact hInv.busy_items u j v2 hu
  · intro u u' j v2 v2' hne hu hu'
    dsimp only at hu hu'
    by_cases huw : u = w
    · rw [huw, hwset_self] at hu
      exact absurd hu (by simp)
    · rw [hwset_ne u huw] at hu
      by_cases hu'w : u' = w
      · rw [hu'w, hwset_self] at hu'
        exact absurd hu' (by simp)
      · rw [hwset_ne u' hu'w] at hu'
        exact hInv.busy_nodup u u' j v2 v2' hne hu hu'
  · intro u j v2 hu
    dsimp only at hu
    by_cases huw : u = w
    · rw [huw, hwset_self] at hu
      exact absurd hu (by simp)
    · rw [hwset_ne u huw] at hu
      have hji : j ≠ i := fun hh => hInv.busy_nodup u w i v2 v huw (hh ▸ hu) hw
      refine ⟨(hInv.busy_not_written u j v2 hu).1, ?_⟩
      show ((s.errs.set i (some e))[j]?).getD none = none
      rw [herr_ne j (Ne.symm hji)]
      exact (hInv.busy_not_written u j v2 hu).2
  · intro j
    by_cases hji : j = i
    · subst hji
      exact Or.inl hbnw.1
    · rcases hInv.mutex j with hm | hm
      · exact Or.inl hm
      · refine Or.inr ?_
        show ((s.errs.set i (some e))[j]?).getD none = none
        rw [herr_ne j (fun hh => hji hh.symm)]
        exact hm
  · intro j e' he'
    have he2 : ((s.errs.set i (some e))[j]?).getD none = some e' := he'
    by_cases hji : j = i
    · subst hji
      rw [herr_self] at he2
      injection he2 with he2
      subst he2
      exact ⟨s.ambientCancelled, v, hbi.2, hf⟩
    · rw [herr_ne j (fun hh => hji hh.symm)] at he2
      exact hInv.err_sound j e' he2
  · show ((s.errs.set i (some e))[items.length]?).getD none = none
    rw [herr_ne items.length (Nat.ne_of_lt hiN)]
    exact hInv.err_last
  · intro j hj
    by_cases hji : j = i
    · subst hji
      exact hbi.1
    · refine hInv.written_lt_sent j ?_
      rcases hj with hj | hj
      · exact Or.inl hj
      · have hj2 : ((s.errs.set i (some e))[j]?).getD none ≠ none := hj
        rw [herr_ne j (fun hh => hji hh.symm)] at hj2
        exact Or.inr hj2
  · intro j hj
    rcases hInv.coverage j hj with ⟨p, hp, hpj⟩ | ⟨u, v2, hu⟩ | hcov | hcov
    · exact Or.inl ⟨p, hp, hpj⟩
    · by_cases huw : u = w
      · rw [huw, hw] at hu
        injection hu with hu
        cases hu
        refine Or.inr (Or.inr (Or.inr ?_))
        show ((s.errs.set i (some e))[i]?).getD none ≠ none
        rw [herr_self]
        simp
      · refine Or.inr (Or.inl ⟨u, v2, ?_⟩)
        show (s.workers.set w WStatus.done)[u]? = some (WStatus.busy j v2)
        rw [hwset_ne u huw]
        exact hu
    · exact Or.inr (Or.inr (Or.inl hcov))
    · refine Or.inr (Or.inr (Or.inr ?_))
      by_cases hji : j = i
      · subst hji
        show ((s.errs.set j (some e))[j]?).getD none ≠ none
        rw [herr_self]
        simp
      · show ((s.errs.set i (some e))[j]?).getD none ≠ none
        rw [herr_ne j (fun hh => hji hh.symm)]
        exact hcov
  · intro hch
    exact absurd hch (by simp)
  · intro h0
    dsimp only at h0
    rw [List.length_set] at h0
    omega

theorem inv_workerFinishErrCont {T R E : Type} {h : MapConcurrentHandler T R E} {items : List T}
    {s : ExecState T R E} (hInv : PoolInv h items s) (w i : Nat) (v : T) (e : E)
    (hw : s.workers[w]? = some (WStatus.busy i v))
    (hf : h.mapFunc s.ambientCancelled v = .error e)
    (hstop : h.stopOnError = false) :
    PoolInv h items { s with errs := s.errs.set i (some e),
                             workers := s.workers.set w .idle } := by
  have hwlt : w < s.workers.length := lt_length_of_getElem?_eq_some hw
  have hbi := hInv.busy_items w i v hw
  have hbnw := hInv.busy_not_written w i v hw
  have hiN : i < items.length := lt_of_lt_of_le hbi.1 hInv.sent_le
  have hilt : i < s.errs.length := by
    rw [hInv.errs_len]
    omega
  have herr_self : ((s.errs.set i (some e))[i]?).getD none = some e :=
    getD_none_set_self _ _ _ hilt
  have herr_ne : ∀ j : Nat, i ≠ j →
      ((s.errs.set i (some e))[j]?).getD none = errAt s j := by
    intro j hj
    exact getD_none_set_ne _ _ _ _ hj
  have hwset_self : (s.workers.set w WStatus.idle)[w]? = some WStatus.idle :=
    List.getElem?_set_eq_of_lt _ hwlt
  have hwset_ne : ∀ u : Nat, u ≠ w →
      (s.workers.set w WStatus.idle)[u]? = s.workers[u]? := by
    intro u hu
    exact List.getElem?_set_ne (fun hh => hu hh.symm)
  refine
    { results_len := hInv.results_len
      errs_len := by
        dsimp only
        rw [List.length_set]
        exact hInv.errs_len
      workers_len := by
        dsimp only
        rw [List.length_set]
        exact hInv.workers_len
      sent_le := hInv.sent_le
      closed_dispatcher := hInv.closed_dispatcher
      closed_sent := hInv.closed_sent
      queue_items := hInv.queue_items
      queue_nodup := hInv.queue_nodup
      queue_not_written := ?_
      queue_not_busy := ?_
      busy_items := ?_
      busy_nodup := ?_
      busy_not_written := ?_
      mutex := ?_
      res_sound := hInv.res_sound
      err_sound := ?_
      err_last := ?_
      written_lt_sent := ?_
      coverage := ?_
      child_reason := ?_
      done_reason := ?_
      no_workers := ?_
      calls_ambient := hInv.calls_ambient }
  · intro p hp
    dsimp only at hp
    have hne : i ≠ p.1 := hInv.queue_not_busy p hp w i v hw
    refine ⟨(hInv.queue_not_written p hp).1, ?_⟩
    show ((s.errs.set i (some e))[p.1]?).getD none = none
    rw [herr_ne p.1 hne]
    exact (hInv.queue_not_written p hp).2
  · intro p hp u j v2 hu
    dsimp only at hp hu
    by_cases huw : u = w
    · rw [huw, hwset_self] at hu
      exact absurd hu (by simp)
    · rw [hwset_ne u huw] at hu
      exact hInv.queue_not_busy p hp u j v2 hu
  · intro u j v2 hu
    dsimp only at hu
    by_cases huw : u = w
    · rw [huw, hwset_self] at hu
      exact absurd hu (by simp)
    · rw [hwset_ne u huw] at hu
      exact hInv.busy_items u j v2 hu
  · intro u u' j v2 v2' hne hu hu'
    dsimp only at hu hu'
    by_cases huw : u = w
    · rw [huw, hwset_self] at hu
      exact absurd hu (by simp)
    · rw [hwset_ne u huw] at hu
      by_cases hu'w : u' = w
      · rw [hu'w, hwset_self] at hu'
        exact absurd hu' (by simp)
      · rw [hwset_ne u' hu'w] at hu'
        exact hInv.busy_nodup u u' j v2 v2' hne hu hu'
  · intro u j v2 hu
    dsimp only at hu
    by_cases huw : u = w
    · rw [huw, hwset_self] at hu
      exact absurd hu (by simp)
    · rw [hwset_ne u huw] at hu
      have hji : j ≠ i := fun hh => hInv.busy_nodup u w i v2 v huw (hh ▸ hu) hw
      refine ⟨(hInv.busy_not_written u j v2 hu).1, ?_⟩
      show ((s.errs.set i (some e))[j]?).getD none = none
      rw [herr_ne j (Ne.symm hji)]
      exact (hInv.busy_not_written u j v2 hu).2
  · intro j
    by_cases hji : j = i
    · subst hji
      exact Or.inl hbnw.1
    · rcases hInv.mutex j with hm | hm
      · exact Or.inl hm
      · refine Or.inr ?_
        show ((s.errs.set i (some e))[j]?).getD none = none
        rw [herr_ne j (fun hh => hji hh.symm)]
        exact hm
  · intro j e' he'
    have he2 : ((s.errs.set i (some e))[j]?).getD none = some e' := he'
    by_cases hji : j = i
    · subst hji
      rw [herr_self] at he2
      injection he2 with he2
      subst he2
      exact ⟨s.ambientCancelled, v, hbi.2, hf⟩
    · rw [herr_ne j (fun hh => hji hh.symm)] at he2
      exact hInv.err_sound j e' he2
  · show ((s.errs.set i (some e))[items.length]?).getD none = none
    rw [herr_ne items.length (Nat.ne_of_lt hiN)]
    exact hInv.err_last
  · intro j hj
    by_cases hji : j = i
    · subst hji
      exact hbi.1
    · refine hInv.written_lt_sent j ?_
      rcases hj with hj | hj
      · exact Or.inl hj
      · have hj2 : ((s.errs.set i (some e))[j]?).getD none ≠ none := hj
        rw [herr_ne j (fun hh => hji hh.symm)] at hj2
        exact Or.inr hj2
  · intro j hj
    rcases hInv.coverage j hj with ⟨p, hp, hpj⟩ | ⟨u, v2, hu⟩ | hcov | hcov
    · exact Or.inl ⟨p, hp, hpj⟩
    · by_cases huw : u = w
      · rw [huw, hw] at hu
        injection hu with hu
        cases hu
        refine Or.inr (Or.inr (Or.inr ?_))
        show ((s.errs.set i (some e))[i]?).getD none ≠ none
        rw [herr_self]
        simp
      · refine Or.inr (Or.inl ⟨u, v2, ?_⟩)
        show (s.workers.set w WStatus.idle)[u]? = some (WStatus.busy j v2)
        rw [hwset_ne u huw]
        exact hu
    · exact Or.inr (Or.inr (Or.inl hcov))
    · refine Or.inr (Or.inr (Or.inr ?_))
      by_cases hji : j = i
      · subst hji
        show ((s.errs.set j (some e))[j]?).getD none ≠ none
        rw [herr_self]
        simp
      · show ((s.errs.set i (some e))[j]?).getD none ≠ none
        rw [herr_ne j (fun hh => hji hh.symm)]
        exact hcov
  · intro hch
    rcases hInv.child_reason hch with ha | ⟨hst, i0, e0, he0⟩
    · exact Or.inl ha
    · have hne0 : i ≠ i0 := by
        intro hh
        rw [← hh] at he0
        rw [hbnw.2] at he0
        exact absurd he0 (by simp)
      refine Or.inr ⟨hst, i0, e0, ?_⟩
      show ((s.errs.set i (some e))[i0]?).getD none = some e0
      rw [herr_ne i0 hne0]
      exact he0
  · intro hch hdone
    obtain ⟨w', hw', hwd⟩ := hdone
    dsimp only at hw'
    subst hwd
    rcases List.mem_or_eq_of_mem_set hw' with hw' | hw'
    · exact hInv.done_reason hch ⟨_, hw', rfl⟩
    · exact absurd hw' (by simp)
  · intro h0
    dsimp only at h0
    rw [List.length_set] at h0
    omega

theorem inv_workerExit {T R E : Type} {h : MapConcurrentHandler T R E} {items : List T}
    {s : ExecState T R E} (hInv : PoolInv h items s) (w : Nat)
    (hw : s.workers[w]? = some WStatus.idle)
    (hdr : s.childCancelled = false → (s.closed = true ∧ s.queue = [])) :
    PoolInv h items { s with workers := s.workers.set w .done } := by
  have hwlt : w < s.workers.length := lt_length_of_getElem?_eq_some hw
  have hwset_self : (s.workers.set w WStatus.done)[w]? = some WStatus.done :=
    List.getElem?_set_eq_of_lt _ hwlt
  have hwset_ne : ∀ u : Nat, u ≠ w →
      (s.workers.set w WStatus.done)[u]? = s.workers[u]? := by
    intro u hu
    exact List.getElem?_set_ne (fun hh => hu hh.symm)
  refine
    { results_len := hInv.results_len
      errs_len := hInv.errs_len
      workers_len := by
        dsimp only
        rw [List.length_set]
        exact hInv.workers_len
      sent_le := hInv.sent_le
      closed_dispatcher := hInv.closed_dispatcher
      closed_sent := hInv.closed_sent
      queue_items := hInv.queue_items
      queue_nodup := hInv.queue_nodup
      queue_not_written := hInv.queue_not_written
      queue_not_busy := ?_
      busy_items := ?_
      busy_nodup := ?_
      busy_not_written := ?_
      mutex := hInv.mutex
      res_sound := hInv.res_sound
      err_sound := hInv.err_sound
      err_last := hInv.err_last
      written_lt_sent := hInv.written_lt_sent
      coverage := ?_
      child_reason := hInv.child_reason
      done_reason := fun hch _ => hdr hch
      no_workers := ?_
      calls_ambient := hInv.calls_ambient }
  · intro p hp u j v2 hu
    dsimp only at hp hu
    by_cases huw : u = w
    · rw [huw, hwset_self] at hu
      exact absurd hu (by simp)
    · rw [hwset_ne u huw] at hu
      exact hInv.queue_not_busy p hp u j v2 hu
  · intro u j v2 hu
    dsimp only at hu
    by_cases huw : u = w
    · rw [huw, hwset_self] at hu
      exact absurd hu (by simp)
    · rw [hwset_ne u huw] at hu
      exact hInv.busy_items u j v2 hu
  · intro u u' j v2 v2' hne hu hu'
    dsimp only at hu hu'
    by_cases huw : u = w
    · rw [huw, hwset_self] at hu
      exact absurd hu (by simp)
    · rw [hwset_ne u huw] at hu
      by_cases hu'w : u' = w
      · rw [hu'w, hwset_self] at hu'
        exact absurd hu' (by simp)
      · rw [hwset_ne u' hu'w] at hu'
        exact hInv.busy_nodup u u' j v2 v2' hne hu hu'
  · intro u j v2 hu
    dsimp only at hu
    by_cases huw : u = w
    · rw [huw, hwset_self] at hu
      exact absurd hu (by simp)
    · rw [hwset_ne u huw] at hu
      exact hInv.busy_not_written u j v2 hu
  · intro j hj
    rcases hInv.coverage j hj with ⟨p, hp, hpj⟩ | ⟨u, v2, hu⟩ | hcov | hcov
    · exact Or.inl ⟨p, hp, hpj⟩
    · have huw : u ≠ w := by
        intro hh
        rw [hh, hw] at hu
        exact absurd hu (by simp)
      refine Or.inr (Or.inl ⟨u, v2, ?_⟩)
      show (s.workers.set w WStatus.done)[u]? = some (WStatus.busy j v2)
      rw [hwset_ne u huw]
      exact hu
    · exact Or.inr (Or.inr (Or.inl hcov))
    · exact Or.inr (Or.inr (Or.inr hcov))
  · intro h0
    dsimp only at h0
    rw [List.length_set] at h0
    omega

/-- Every step preserves the pool invariant. -/
theorem inv_step {T R E : Type} {h : MapConcurrentHandler T R E} {items : List T}
    {s s' : ExecState T R E} (hInv : PoolInv h items s) (hst : Step h items s s') :
    PoolInv h items s' := by
  cases hst with
  | dispatchSend t hd hi => exact inv_dispatchSend hInv t hd hi
  | dispatchExitCancel hd hc hlt => exact inv_dispatchExitCancel hInv hc
  | dispatchClose hd hs => exact inv_dispatchClose hInv hd hs
  | workerPickup w i v rest hw hq => exact inv_workerPickup hInv w i v rest hw hq
  | workerFinishOk w i v r hw hf => exact inv_workerFinishOk hInv w i v r hw hf
  | workerFinishErrStop w i v e hw hf hstop =>
      exact inv_workerFinishErrStop hInv w i v e hw hf hstop
  | workerFinishErrCont w i v e hw hf hstop =>
      exact inv_workerFinishErrCont hInv w i v e hw hf hstop
  | workerExitCancel w hw hc =>
      exact inv_workerExit hInv w hw (fun hch => absurd hch (by rw [hc]; simp))
  | workerExitClosed w hw hq hcl =>
      exact inv_workerExit hInv w hw (fun _ => ⟨hcl, hq⟩)
  | ambientCancel ha => exact inv_ambientCancel hInv

/-- Every reachable pool state satisfies the invariant. -/
theorem inv_reach {T R E : Type} {h : MapConcurrentHandler T R E} {items : List T}
    {amb0 : Bool} {s : ExecState T R E} (hreach : Reach h items amb0 s) :
    PoolInv h items s := by
  induction hreach with
  | refl => exact inv_init h items amb0
  | tail hr hst ih => exact inv_step ih hst

/-! Helper lemmas about finished executions. -/

theorem getD_some_imp {α : Type} (l : List (Option α)) (i : Nat) (a : α)
    (hg : (l[i]?).getD none = some a) : l[i]? = some (some a) := by
  cases hl : l[i]? with
  | none =>
    rw [hl] at hg
    exact absurd hg (by simp)
  | some o =>
    rw [hl] at hg
    simp only [Option.getD_some] at hg
    rw [hg]

/-- An error recorded in a slot is never overwritten by any later step. -/
theorem errAt_mono {T R E : Type} {h : MapConcurrentHandler T R E} {items : List T}
    {s s' : ExecState T R E} (hInv : PoolInv h items s) (hst : Step h items s s')
    (j : Nat) (e : E) (he : errAt s j = some e) : errAt s' j = some e := by
  have hgen : ∀ (w i : Nat) (v : T) (e' : E), s.workers[w]? = some (WStatus.busy i v) →
      ((s.errs.set i (some e'))[j]?).getD none = some e := by
    intro w i v e' hw
    have hji : i ≠ j := by
      intro hh
      have := (hInv.busy_not_written w i v hw).2
      rw [hh] at this
      rw [this] at he
      exact absurd he (by simp)
    rw [getD_none_set_ne _ _ _ _ hji]
    exact he
  cases hst with
  | dispatchSend t hd hi => exact he
  | dispatchExitCancel hd hc hlt => exact he
  | dispatchClose hd hs => exact he
  | workerPickup w i v rest hw hq => exact he
  | workerFinishOk w i v r hw hf => exact he
  | workerFinishErrStop w i v e' hw hf hstop => exact hgen w i v e' hw
  | workerFinishErrCont w i v e' hw hf hstop => exact hgen w i v e' hw
  | workerExitCancel w hw hc => exact he
  | workerExitClosed w hw hq hcl => exact he
  | ambientCancel ha => exact he

/-- In a finished pool state with the child context never cancelled, every
job was dispatched and every index carries a result or an error. -/
theorem all_processed {T R E : Type} {h : MapConcurrentHandler T R E} {items : List T}
    {s : ExecState T R E} (hInv : PoolInv h items s)
    (hch : s.childCancelled = false) (hdone : AllWorkersDone s)
    (hW : s.workers ≠ []) :
    s.sent = items.length ∧
      ∀ i, i < items.length → (resAt s i ≠ none ∨ errAt s i ≠ none) := by
  obtain ⟨w0, hw0⟩ : ∃ w0, w0 ∈ s.workers := by
    cases hws : s.workers with
    | nil => exact absurd hws hW
    | cons a tl => exact ⟨a, List.mem_cons_self a tl⟩
  obtain ⟨hcl, hq⟩ := hInv.done_reason hch ⟨w0, hw0, hdone w0 hw0⟩
  have hne : ¬(s.childCancelled = true) := by rw [hch]; simp
  have hsent : s.sent = items.length := (hInv.closed_sent hcl).resolve_left hne
  refine ⟨hsent, ?_⟩
  intro i hi
  have hi' : i < s.sent := by rw [hsent]; exact hi
  rcases hInv.coverage i hi' with ⟨p, hp, hpj⟩ | ⟨u, v2, hu⟩ | hcov | hcov
  · rw [hq] at hp
    exact absurd hp (by simp)
  · have hmem := mem_of_getElem?_eq_some hu
    have := hdone _ hmem
    exact absurd this (by simp)
  · exact Or.inl hcov
  · exact Or.inr hcov

theorem joinErrors_eq_none {E : Type} (l : List (Option E)) (hall : ∀ x ∈ l, x = none) :
    joinErrors l = none := by
  have hfm : l.filterMap id = [] := by
    rw [List.filterMap_eq_nil_iff]
    intro a ha
    rw [hall a ha]
    rfl
  unfold joinErrors
  rw [hfm]
  rfl

/-- A finished state holding at least one recorded failure (or a cancelled
ambient context) makes `Execute` return nil output plus an aggregate that
carries every recorded failure and the ambient error. -/
theorem execResult_err {T R E : Type} (zero : R) (eCtx : E) (s : ExecState T R E)
    (hfail : (∃ i e', errAt s i = some e') ∨ s.ambientCancelled = true) :
    ∃ es, execResult zero eCtx s = .ret none (some es) s.calls ∧
      (∀ i e', errAt s i = some e' → e' ∈ es) ∧
      (s.ambientCancelled = true → eCtx ∈ es) := by
  have hmemof : ∀ (i : Nat) (e' : E), errAt s i = some e' →
      e' ∈ (finalErrs eCtx s).filterMap id := by
    intro i e' he'
    have h1 : s.errs[i]? = some (some e') := getD_some_imp _ _ _ he'
    have h2 : (some e') ∈ s.errs := mem_of_getElem?_eq_some h1
    have h3 : (some e') ∈ finalErrs eCtx s := List.mem_append_left _ h2
    exact List.mem_filterMap.mpr ⟨some e', h3, rfl⟩
  have hmemctx : s.ambientCancelled = true → eCtx ∈ (finalErrs eCtx s).filterMap id := by
    intro ha
    have h3 : (some eCtx) ∈ finalErrs eCtx s := by
      refine List.mem_append_right _ ?_
      rw [show ctxErrOf eCtx s = some eCtx from by rw [ctxErrOf, if_pos ha]]
      exact List.mem_singleton.mpr rfl
    exact List.mem_filterMap.mpr ⟨some eCtx, h3, rfl⟩
  have hne : (finalErrs eCtx s).filterMap id ≠ [] := by
    rcases hfail with ⟨i, e', he'⟩ | ha
    · exact List.ne_nil_of_mem (hmemof i e' he')
    · exact List.ne_nil_of_mem (hmemctx ha)
  have hj : joinErrors (finalErrs eCtx s) = some ((finalErrs eCtx s).filterMap id) := by
    unfold joinErrors
    rw [if_neg (by simpa using hne)]
  refine ⟨(finalErrs eCtx s).filterMap id, ?_, hmemof, hmemctx⟩
  unfold execResult
  rw [hj]

theorem workers_ne_nil {T R E : Type} {h : MapConcurrentHandler T R E} {items : List T}
    {s : ExecState T R E} (hInv : PoolInv h items s) (hne : items ≠ [])
    (hconc : 1 ≤ h.concurrency) : s.workers ≠ [] := by
  have hlen : 0 < items.length := List.length_pos.mpr hne
  have hl : s.workers.length ≠ 0 := by
    rw [hInv.workers_len]
    unfold workerCount numWorkersOf
    split <;> omega
  intro hh
  rw [hh] at hl
  exact hl rfl

theorem child_false_of_no_err {T R E : Type} {h : MapConcurrentHandler T R E} {items : List T}
    {s : ExecState T R E} (hInv : PoolInv h items s)
    (hamb : s.ambientCancelled = false)
    (hnoerr : h.stopOnError = false ∨ ∀ i, errAt s i = none) :
    s.childCancelled = false := by
  cases hc : s.childCancelled
  · rfl
  · rcases hInv.child_reason hc with ha | ⟨hst, i, e, he⟩
    · rw [hamb] at ha
      exact absurd ha (by simp)
    · rcases hnoerr with hso | hall
      · rw [hso] at hst
        exact absurd hst (by simp)
      · rw [hall i] at he
        exact absurd he (by simp)

theorem errs_none_of_ok {T R E : Type} {h : MapConcurrentHandler T R E} {items : List T}
    {s : ExecState T R E} (hInv : PoolInv h items s) (g : T → R)
    (hok : ∀ (b : Bool) (t : T), h.mapFunc b t = .ok (g t)) :
    ∀ i, errAt s i = none := by
  intro i
  cases he : errAt s i with
  | none => rfl
  | some e =>
    obtain ⟨b, v, hv, hfv⟩ := hInv.err_sound i e he
    rw [hok b v] at hfv
    exact absurd hfv (by simp)

theorem finalErrs_all_none {T R E : Type} {s : ExecState T R E} (eCtx : E)
    (hamb : s.ambientCancelled = false) (hall : ∀ i, errAt s i = none) :
    ∀ x ∈ finalErrs eCtx s, x = none := by
  intro x hx
  rcases List.mem_append.mp hx with hx | hx
  · obtain ⟨i, hi⟩ := List.mem_iff_getElem?.mp hx
    have h2 := hall i
    rw [show errAt s i = (s.errs[i]?).getD none from rfl, hi] at h2
    simpa using h2
  · rcases List.mem_singleton.mp hx with rfl
    simp [ctxErrOf, hamb]

theorem execResult_ok {T R E : Type} (zero : R) (eCtx : E) {h : MapConcurrentHandler T R E}
    {items : List T} {s : ExecState T R E} (hInv : PoolInv h items s) (g : T → R)
    (hok : ∀ (b : Bool) (t : T), h.mapFunc b t = .ok (g t))
    (hamb : s.ambientCancelled = false)
    (hproc : ∀ i, i < items.length → (resAt s i ≠ none ∨ errAt s i ≠ none)) :
    execResult zero eCtx s = .ret (some (items.map g)) none s.calls := by
  have herrs := errs_none_of_ok hInv g hok
  have hj : joinErrors (finalErrs eCtx s) = none :=
    joinErrors_eq_none _ (finalErrs_all_none eCtx hamb herrs)
  have hmap : s.results.map (fun o => o.getD zero) = items.map g := by
    apply List.ext_getElem?
    intro i
    rw [List.getElem?_map, List.getElem?_map]
    by_cases hi : i < items.length
    · have hv : items[i]? = some (items[i]) := List.getElem?_eq_getElem hi
      have hres : resAt s i ≠ none := by
        rcases hproc i hi with hr | he
        · exact hr
        · exact absurd (herrs i) he
      obtain ⟨r, hr⟩ := Option.ne_none_iff_exists'.mp hres
      obtain ⟨b, v, hv', hfv⟩ := hInv.res_sound i r hr
      rw [hv] at hv'
      injection hv' with hv'
      rw [hok b v] at hfv
      injection hfv with hfv
      have h1 : s.results[i]? = some (some r) := getD_some_imp _ _ _ hr
      rw [h1, hv]
      simp only [Option.map_some', Option.getD_some]
      rw [← hfv, hv']
    · have h1 : s.results[i]? = none := by
        apply getElem?_none_of_len
        rw [hInv.results_len]
        omega
      have h2 : items[i]? = none := by
        apply getElem?_none_of_len
        omega
      rw [h1, h2]
      rfl
  unfold execResult
  rw [hj, hmap]

/-- C1: for a non-empty input, a configured concurrency of at least one and a
transform that succeeds on every element (with result `g`), every completed
run of `Execute` under a never-cancelled ambient context returns the non-nil
output slice whose element at each position `i` is the transform result on
input element `i` (so its length is the input length), together with a nil
error. -/
theorem mapConcurrent_success {T R E : Type} (h : MapConcurrentHandler T R E)
    (items : List T) (zero : R) (eCtx : E) (amb0 : Bool) (g : T → R)
    (s : ExecState T R E)
    (hne : items ≠ []) (hconc : 1 ≤ h.concurrency)
    (hok : ∀ (b : Bool) (t : T), h.mapFunc b t = .ok (g t))
    (hreach : Reach h items amb0 s) (hdone : AllWorkersDone s)
    (hamb : s.ambientCancelled = false) :
    execResult zero eCtx s = .ret (some (items.map g)) none s.calls := by
  have hInv := inv_reach hreach
  have hch : s.childCancelled = false :=
    child_false_of_no_err hInv hamb (Or.inr (errs_none_of_ok hInv g hok))
  have hW := workers_ne_nil hInv hne hconc
  have hproc := (all_processed hInv hch hdone hW).2
  exact execResult_ok zero eCtx hInv g hok hamb hproc

/-- C2: when any failure was recorded during a completed `Execute` run (one
or many element failures, or an ambient cancellation), the returned output is
nil, the returned error is non-nil, every recorded failure is contained in
the aggregate, and a cancelled ambient context contributes its error too. -/
theorem mapConcurrent_error_aggregates {T R E : Type} (h : MapConcurrentHandler T R E)
    (items : List T) (zero : R) (eCtx : E) (amb0 : Bool) (s : ExecState T R E)
    (hreach : Reach h items amb0 s) (hdone : AllWorkersDone s)
    (hfail : (∃ i e', errAt s i = some e') ∨ s.ambientCancelled = true) :
    ∃ es, execResult zero eCtx s = .ret none (some es) s.calls ∧
      (∀ i e', errAt s i = some e' → e' ∈ es) ∧
      (s.ambientCancelled = true → eCtx ∈ es) :=
  execResult_err zero eCtx s hfail

/-- C3: under the collect-all policy every dispatched job runs to completion
in spite of earlier failures (every index below the input length carries a
result or an error when the pool has finished and the ambient context never
expired), and whenever failures were recorded, the single aggregated error of
the nil-output return contains every one of them, not just the first. -/
theorem mapConcurrent_collect_all {T R E : Type} (h : MapConcurrentHandler T R E)
    (items : List T) (zero : R) (eCtx : E) (s : ExecState T R E)
    (hstop : h.stopOnError = false) (hne : items ≠ []) (hconc : 1 ≤ h.concurrency)
    (hreach : Reach h items false s) (hdone : AllWorkersDone s)
    (hamb : s.ambientCancelled = false) :
    (∀ i, i < items.length → (resAt s i ≠ none ∨ errAt s i ≠ none)) ∧
    ((∃ i e', errAt s i = some e') →
      ∃ es, execResult zero eCtx s = .ret none (some es) s.calls ∧
        ∀ i e', errAt s i = some e' → e' ∈ es) := by
  have hInv := inv_reach hreach
  have hch : s.childCancelled = false := child_false_of_no_err hInv hamb (Or.inl hstop)
  have hW := workers_ne_nil hInv hne hconc
  refine ⟨(all_processed hInv hch hdone hW).2, ?_⟩
  intro hfail
  obtain ⟨es, h1, h2, h3⟩ := execResult_err zero eCtx s (Or.inl hfail)
  exact ⟨es, h1, h2⟩

/-- C4: for a non-negative configured concurrency the pool of every reachable
`Execute` state consists of exactly min(concurrency, input length) workers,
and the number of transform invocations in flight never exceeds that bound. -/
theorem mapConcurrent_worker_bound {T R E : Type} (h : MapConcurrentHandler T R E)
    (items : List T) (amb0 : Bool) (s : ExecState T R E)
    (hconc : 0 ≤ h.concurrency) (hreach : Reach h items amb0 s) :
    (s.workers.length : Int) = min h.concurrency (items.length : Int) ∧
    (inFlight s : Int) ≤ min h.concurrency (items.length : Int) := by
  have hInv := inv_reach hreach
  have h1 : (s.workers.length : Int) = min h.concurrency (items.length : Int) := by
    rw [hInv.workers_len]
    unfold workerCount numWorkersOf
    rw [Int.min_def]
    split <;> split <;> omega
  refine ⟨h1, ?_⟩
  rw [← h1]
  have h2 : inFlight s ≤ s.workers.length := List.length_filter_le _ _
  exact_mod_cast h2

/-- C5 amended: throughout `Execute` on an input of length N the error slice
has length N+1 and its last slot (index N) is never written; each failure is
recorded at its job's index and never overwritten by later steps; the overall
cancellation signal is not recorded at index N: instead it is appended as a
new slot, so the aggregated error slice has length N+2 with the signal at
index N+1. -/
theorem errSlots_structure {T R E : Type} (h : MapConcurrentHandler T R E)
    (items : List T) (eCtx : E) (amb0 : Bool) (s : ExecState T R E)
    (hreach : Reach h items amb0 s) :
    s.errs.length = items.length + 1 ∧
    errAt s items.length = none ∧
    (∀ i e, errAt s i = some e → ∃ b v, items[i]? = some v ∧ h.mapFunc b v = .error e) ∧
    (∀ s', Step h items s s' → ∀ j e, errAt s j = some e → errAt s' j = some e) ∧
    (finalErrs eCtx s).length = items.length + 2 ∧
    (finalErrs eCtx s)[items.length + 1]? = some (ctxErrOf eCtx s) := by
  have hInv := inv_reach hreach
  refine ⟨hInv.errs_len, hInv.err_last, hInv.err_sound, ?_, ?_, ?_⟩
  · intro s' hst j e he
    exact errAt_mono hInv hst j e he
  · rw [finalErrs, List.length_append, hInv.errs_len]
    rfl
  · rw [finalErrs]
    rw [show items.length + 1 = s.errs.length from (hInv.errs_len).symm]
    exact List.getElem?_concat_length _ _

/-- C6: every transform invocation of every reachable `Execute` state was
made with the caller's ambient context, never with the pool's internal
cancellable child context. -/
theorem transform_receives_ambient_context {T R E : Type} (h : MapConcurrentHandler T R E)
    (items : List T) (amb0 : Bool) (s : ExecState T R E)
    (hreach : Reach h items amb0 s) :
    ∀ c ∈ s.calls, c.ctxPassed = CtxTag.ambient ∧ c.ctxPassed ≠ CtxTag.child := by
  have hInv := inv_reach hreach
  intro c hc
  have h1 := hInv.calls_ambient c hc
  refine ⟨h1, ?_⟩
  rw [h1]
  simp

/-- C7: on an empty input slice `Execute` returns nil output and nil error,
for every context and configuration, without entering the worker pool and
with zero transform invocations. -/
theorem execute_empty_input {T R E : Type} (h : MapConcurrentHandler T R E)
    (zero : R) (eCtx : E) (amb0 : Bool) (o : ExecOutcome R E)
    (hb : ExecBehavior h zero eCtx ([] : List T) amb0 o) :
    o = .ret none none [] := by
  cases hb with
  | empty he => rfl
  | negPanic hne hneg => exact absurd rfl hne
  | completes s hne hnn hreach hdone => exact absurd rfl hne

/-- C8: in every reachable `Execute` state the result slot and the error slot
of any index are mutually exclusive: never both populated. -/
theorem slots_mutually_exclusive {T R E : Type} (h : MapConcurrentHandler T R E)
    (items : List T) (amb0 : Bool) (s : ExecState T R E)
    (hreach : Reach h items amb0 s) :
    ∀ i, ¬(resAt s i ≠ none ∧ errAt s i ≠ none) := by
  have hInv := inv_reach hreach
  intro i hcon
  rcases hInv.mutex i with hm | hm
  · exact hcon.1 hm
  · exact hcon.2 hm

/-- C9 amended: with the concurrency field set to 0 `Execute` spawns no
workers, never invokes the transform and (with a never-cancelled ambient
context) returns a slice of zero values of the input length together with a
nil error; with a negative concurrency, `wg.Add(numWorkers)` receives a
negative counter and `Execute` panics instead of returning. -/
theorem concurrency_nonpositive {T R E : Type} (h : MapConcurrentHandler T R E)
    (items : List T) (zero : R) (eCtx : E) (hne : items ≠ []) :
    (h.concurrency = 0 → ∀ s : ExecState T R E, Reach h items false s →
      s.ambientCancelled = false →
      s.workers = [] ∧ s.calls = [] ∧
        execResult zero eCtx s = .ret (some (List.replicate items.length zero)) none []) ∧
    (h.concurrency < 0 → ExecBehavior h zero eCtx items false .panicked) := by
  constructor
  · intro hc s hreach hamb
    have hInv := inv_reach hreach
    have hw0 : s.workers.length = 0 := by
      rw [hInv.workers_len]
      unfold workerCount numWorkersOf
      rw [hc]
      rw [if_neg (by omega)]
      rfl
    have hwnil : s.workers = [] := List.eq_nil_of_length_eq_zero hw0
    obtain ⟨hslots, hcalls⟩ := hInv.no_workers hw0
    refine ⟨hwnil, hcalls, ?_⟩
    have hj : joinErrors (finalErrs eCtx s) = none :=
      joinErrors_eq_none _ (finalErrs_all_none eCtx hamb (fun i => (hslots i).2))
    have hrep : s.results = List.replicate items.length none := by
      apply List.ext_getElem?
      intro i
      by_cases hi : i < items.length
      · have h1 := List.getElem?_eq_getElem (show i < s.results.length by
          rw [hInv.results_len]; exact hi)
        have h2 := (hslots i).1
        rw [show resAt s i = (s.results[i]?).getD none from rfl, h1] at h2
        simp only [Option.getD_some] at h2
        rw [h1, h2, List.getElem?_replicate, if_pos hi]
      · rw [getElem?_none_of_len _ _ (by rw [hInv.results_len]; omega),
          getElem?_none_of_len _ _ (by rw [List.length_replicate]; omega)]
    unfold execResult
    rw [hj, hrep, hcalls, List.map_replicate]
    rfl
  · intro hc
    refine ExecBehavior.negPanic hne ?_
    unfold numWorkersOf
    have hlen : 0 < items.length := List.length_pos.mpr hne
    split <;> omega

theorem reach_sOkEx : Reach hOkEx [5] false sOkEx := by
  have h0 : Reach hOkEx [5] false (initState hOkEx [5] false) := Relation.ReflTransGen.refl
  have h1 := Relation.ReflTransGen.tail h0 (Step.dispatchSend _ 5 rfl rfl)
  have h2 := Relation.ReflTransGen.tail h1 (Step.dispatchClose _ rfl rfl)
  have h3 := Relation.ReflTransGen.tail h2 (Step.workerPickup _ 0 0 5 [] rfl rfl)
  have h4 := Relation.ReflTransGen.tail h3 (Step.workerFinishOk _ 0 0 5 6 rfl rfl)
  have h5 := Relation.ReflTransGen.tail h4 (Step.workerExitClosed _ 0 rfl rfl rfl)
  exact h5

theorem reach_sErrEx : Reach hErrEx [5] false sErrEx := by
  have h0 : Reach hErrEx [5] false (initState hErrEx [5] false) := Relation.ReflTransGen.refl
  have h1 := Relation.ReflTransGen.tail h0 (Step.dispatchSend _ 5 rfl rfl)
  have h2 := Relation.ReflTransGen.tail h1 (Step.dispatchClose _ rfl rfl)
  have h3 := Relation.ReflTransGen.tail h2 (Step.workerPickup _ 0 0 5 [] rfl rfl)
  have h4 := Relation.ReflTransGen.tail h3 (Step.workerFinishErrStop _ 0 0 5 7 rfl rfl rfl)
  exact h4

theorem reach_sColEx : Reach hColEx [1, 2] false sColEx := by
  have h0 : Reach hColEx [1, 2] false (initState hColEx [1, 2] false) :=
    Relation.ReflTransGen.refl
  have h1 := Relation.ReflTransGen.tail h0 (Step.dispatchSend _ 1 rfl rfl)
  have h2 := Relation.ReflTransGen.tail h1 (Step.dispatchSend _ 2 rfl rfl)
  have h3 := Relation.ReflTransGen.tail h2 (Step.dispatchClose _ rfl rfl)
  have h4 := Relation.ReflTransGen.tail h3 (Step.workerPickup _ 0 0 1 [(1, 2)] rfl rfl)
  have h5 := Relation.ReflTransGen.tail h4 (Step.workerFinishErrCont _ 0 0 1 1 rfl rfl rfl)
  have h6 := Relation.ReflTransGen.tail h5 (Step.workerPickup _ 0 1 2 [] rfl rfl)
  have h7 := Relation.ReflTransGen.tail h6 (Step.workerFinishErrCont _ 0 1 2 2 rfl rfl rfl)
  have h8 := Relation.ReflTransGen.tail h7 (Step.workerExitClosed _ 0 rfl rfl rfl)
  exact h8

theorem mapConcurrent_success_w :
    execResult 0 99 sOkEx = .ret (some [6]) none [⟨0, CtxTag.ambient⟩] :=
  mapConcurrent_success hOkEx [5] 0 99 false (fun t => t + 1) sOkEx
    (by simp) (by decide) (fun _ _ => rfl) reach_sOkEx
    (fun w hw => List.mem_singleton.mp hw) rfl

theorem mapConcurrent_error_aggregates_w :
    ∃ es, execResult 0 99 sErrEx = .ret none (some es) sErrEx.calls ∧
      (∀ i e', errAt sErrEx i = some e' → e' ∈ es) ∧
      (sErrEx.ambientCancelled = true → 99 ∈ es) :=
  mapConcurrent_error_aggregates hErrEx [5] 0 99 false sErrEx reach_sErrEx
    (fun w hw => List.mem_singleton.mp hw) (Or.inl ⟨0, 7, rfl⟩)

theorem mapConcurrent_collect_all_w :
    (∀ i, i < ([1, 2] : List Nat).length → (resAt sColEx i ≠ none ∨ errAt sColEx i ≠ none)) ∧
    ((∃ i e', errAt sColEx i = some e') →
      ∃ es, execResult 0 99 sColEx = .ret none (some es) sColEx.calls ∧
        ∀ i e', errAt sColEx i = some e' → e' ∈ es) :=
  mapConcurrent_collect_all hColEx [1, 2] 0 99 sColEx rfl (by simp) (by decide)
    reach_sColEx (fun w hw => List.mem_singleton.mp hw) rfl

theorem mapConcurrent_worker_bound_w :
    ((initState hOkEx [5] false).workers.length : Int) =
      min hOkEx.concurrency (([5] : List Nat).length : Int) ∧
    (inFlight (initState hOkEx [5] false) : Int) ≤
      min hOkEx.concurrency (([5] : List Nat).length : Int) :=
  mapConcurrent_worker_bound hOkEx [5] false (initState hOkEx [5] false) (by decide)
    Relation.ReflTransGen.refl

theorem errSlots_structure_w :
    (initState hCtxEx [5] false).errs.length = ([5] : List Nat).length + 1 ∧
    errAt (initState hCtxEx [5] false) (([5] : List Nat).length) = none ∧
    (∀ i e, errAt (initState hCtxEx [5] false) i = some e →
      ∃ b v, ([5] : List Nat)[i]? = some v ∧ hCtxEx.mapFunc b v = .error e) ∧
    (∀ s', Step hCtxEx [5] (initState hCtxEx [5] false) s' →
      ∀ j e, errAt (initState hCtxEx [5] false) j = some e → errAt s' j = some e) ∧
    (finalErrs 99 (initState hCtxEx [5] false)).length = ([5] : List Nat).length + 2 ∧
    (finalErrs 99 (initState hCtxEx [5] false))[([5] : List Nat).length + 1]? =
      some (ctxErrOf 99 (initState hCtxEx [5] false)) :=
  errSlots_structure hCtxEx [5] 99 false (initState hCtxEx [5] false)
    Relation.ReflTransGen.refl

theorem errSlots_structure_cex :
    Reach hCtxEx [5] true sCtxEx ∧ AllWorkersDone sCtxEx ∧
    (finalErrs 99 sCtxEx).length = 3 ∧ ([5] : List Nat).length + 1 = 2 ∧
    (finalErrs 99 sCtxEx)[1]? = some none ∧
    (finalErrs 99 sCtxEx)[2]? = some (some 99) := by
  refine ⟨?_, ?_, rfl, rfl, rfl, rfl⟩
  · exact Relation.ReflTransGen.tail Relation.ReflTransGen.refl
      (Step.workerExitCancel _ 0 rfl rfl)
  · intro w hw
    exact List.mem_singleton.mp hw

theorem transform_receives_ambient_context_w :
    CallLog.ctxPassed ⟨0, CtxTag.ambient⟩ = CtxTag.ambient ∧
    CallLog.ctxPassed ⟨0, CtxTag.ambient⟩ ≠ CtxTag.child :=
  transform_receives_ambient_context hOkEx [5] false sOkEx reach_sOkEx
    ⟨0, CtxTag.ambient⟩ (List.mem_singleton.mpr rfl)

theorem execute_empty_input_w :
    (ExecOutcome.ret none none [] : ExecOutcome Nat Nat) = .ret none none [] :=
  execute_empty_input hCtxEx 0 99 false (.ret none none []) (ExecBehavior.empty rfl)

theorem slots_mutually_exclusive_w :
    ¬(resAt (initState hCtxEx [5] false) 0 ≠ none ∧
      errAt (initState hCtxEx [5] false) 0 ≠ none) :=
  slots_mutually_exclusive hCtxEx [5] false (initState hCtxEx [5] false)
    Relation.ReflTransGen.refl 0

theorem concurrency_nonpositive_w :
    (initState hZeroEx [5] false).workers = [] ∧
    (initState hZeroEx [5] false).calls = [] ∧
    execResult 0 99 (initState hZeroEx [5] false) =
      .ret (some (List.replicate ([5] : List Nat).length 0)) none [] :=
  (concurrency_nonpositive hZeroEx [5] 0 99 (by simp)).1 rfl
    (initState hZeroEx [5] false) Relation.ReflTransGen.refl rfl

theorem execBehavior_neg_panic {T R E : Type} {h : MapConcurrentHandler T R E}
    {zero : R} {eCtx : E} {items : List T} {amb0 : Bool} {o : ExecOutcome R E}
    (hb : ExecBehavior h zero eCtx items amb0 o) (hne : items ≠ [])
    (hneg : numWorkersOf h items.length < 0) : o = .panicked := by
  cases hb with
  | empty he => exact absurd he hne
  | negPanic _ _ => rfl
  | completes s _ hnn _ _ => omega

theorem concurrency_nonpositive_cex :
    ExecBehavior hNegEx 0 99 [5] false .panicked ∧
    ¬ ExecBehavior hNegEx 0 99 [5] false (.ret (some [0]) none []) := by
  constructor
  · exact ExecBehavior.negPanic (by simp) (by decide)
  · intro hb
    have hp := execBehavior_neg_panic hb (by simp) (by decide)
    exact absurd hp (by simp)
